import Mathlib

/-!
Verification development for the duckhist history manager.

The definitions below are a shallow embedding of the Go sources:
  - internal/history/manager.go (the sqlite query-builder version, whose
    ParseSearchQuery / SearchComplex / OrderByCurrentDirFirst / FindByCommand /
    FindHistory / isDuplicate / AddCommand are cited by the claims),
  - cmd/add.go (CommandAdder.AddCommand and the add subcommand Run function),
  - cmd/search.go (the updateTable closure that renders the filtered list).

The persistent store is modelled as a list of entries in insertion order.
The SQL fragments the code builds are embedded by their standard semantics:
  - WHERE clauses become list filters,
  - ORDER BY (CASE WHEN executing_dir = ? THEN 0 ELSE 1 END, id DESC) becomes a
    stable insertion sort by that key (exact for the unique ids the code uses),
  - LIKE patterns get full SQL semantics: ASCII-case-insensitive comparison and
    the wildcards percent (any run) and underscore (any one character).
Entry ids are ULIDs in the code, i.e. unique and time-ordered; they are
modelled as naturals increasing in insertion order.  Database I/O errors and
process-context lookups (os.Getwd, hostname) are external effects; Getwd is
modelled by an explicit cwd argument and store errors do not arise on the
in-memory store.
-/

namespace Duckhist

/-- History row, from type Entry in internal/history/manager.go. -/
structure Entry where
  ID : Nat
  Command : String
  Timestamp : Nat
  Hostname : String
  Directory : String
  Username : String
  TTY : String
  SID : String
deriving DecidableEq

/-- One parsed search term, from type SearchTermCondition in manager.go. -/
structure SearchTermCondition where
  Term : String
  IsNegated : Bool
deriving DecidableEq

/-- ASCII lower casing, the folding sqlite applies inside LIKE. -/
def lowAscii (c : Char) : Char :=
  if 'A' ≤ c ∧ c ≤ 'Z' then Char.ofNat (c.toNat + 32) else c

/-- ASCII upper casing, used for the strings.ToUpper comparison with "NOT"
(only ASCII letters can reach "NOT" under Unicode upper casing). -/
def upAscii (c : Char) : Char :=
  if 'a' ≤ c ∧ c ≤ 'z' then Char.ofNat (c.toNat - 32) else c

/-- The Unicode White_Space set, the predicate behind unicode.IsSpace that
strings.Fields and strings.TrimSpace split and trim on. -/
def goIsSpace (c : Char) : Bool :=
  c = '\t' || c = '\n' || c = Char.ofNat 11 || c = Char.ofNat 12 || c = '\r' ||
  c = ' ' || c = Char.ofNat 133 || c = Char.ofNat 160 || c = Char.ofNat 5760 ||
  (decide (8192 ≤ c.toNat) && decide (c.toNat ≤ 8202)) ||
  c = Char.ofNat 8232 || c = Char.ofNat 8233 || c = Char.ofNat 8239 ||
  c = Char.ofNat 8287 || c = Char.ofNat 12288

/-- SQL LIKE matching of a pattern against a text, as sqlite evaluates the
"command LIKE ?" conditions built by SearchComplex: percent matches any run,
underscore matches any single character, other characters compare
ASCII-case-insensitively. -/
def sqlLike : List Char → List Char → Bool
  | [], t => t.isEmpty
  | c :: p, t =>
    if c = '%' then t.tails.any fun t2 => sqlLike p t2
    else
      match t with
      | [] => false
      | d :: t2 => (c = '_' || lowAscii c == lowAscii d) && sqlLike p t2

/-- Exact prefix test on character lists (helper for the splitters). -/
def begMatch : List Char → List Char → Bool
  | [], _ => true
  | _ :: _, [] => false
  | a :: x, b :: y => (a == b) && begMatch x y

/-- Contiguous-segment containment on character lists. -/
def containsSeg (needle : List Char) : List Char → Bool
  | [] => needle.isEmpty
  | c :: t => begMatch needle (c :: t) || containsSeg needle t

/-- Locate the first occurrence of sep, returning the text before and after
it, as the scan inside strings.Split does. -/
def breakSep (sep : List Char) : List Char → Option (List Char × List Char)
  | [] => none
  | c :: t =>
    if begMatch sep (c :: t) then some ([], (c :: t).drop sep.length)
    else (breakSep sep t).map fun q => (c :: q.1, q.2)

/-- The separator " OR " that ParseSearchQuery splits on. -/
def orSep : List Char := [' ', 'O', 'R', ' ']

/-- Fuelled worker for strings.Split on " OR ": the fuel only bounds the
number of separator occurrences, which is below the length of the input. -/
def splitOnORF : Nat → List Char → List (List Char)
  | 0, l => [l]
  | n + 1, l =>
    match breakSep orSep l with
    | none => [l]
    | some (b, a) => b :: splitOnORF n a

/-- strings.Split of the raw query on " OR ", as character lists. -/
def splitOnOR (l : List Char) : List (List Char) :=
  splitOnORF l.length l

/-- Worker for strings.Fields: acc holds the reversed characters of the word
currently being read; whitespace closes the word, everything else extends it. -/
def fieldsAux : List Char → List Char → List (List Char)
  | [], acc => if acc.isEmpty then [] else [acc.reverse]
  | c :: t, acc =>
    if goIsSpace c then
      if acc.isEmpty then fieldsAux t [] else acc.reverse :: fieldsAux t []
    else fieldsAux t (c :: acc)

/-- strings.Fields: the maximal runs of non-whitespace characters. -/
def fields (l : List Char) : List (List Char) :=
  fieldsAux l []

/-- True when strings.ToUpper of the token equals "NOT". -/
def isNOTWord (t : List Char) : Bool :=
  t.map upAscii == ['N', 'O', 'T']

/-- The token loop inside one AND group of ParseSearchQuery: a token NOT
negates the following token; a trailing NOT is kept as a literal term. -/
def parseTokens : List (List Char) → List SearchTermCondition
  | [] => []
  | t :: rest =>
    if isNOTWord t then
      match rest with
      | [] => [⟨⟨t⟩, false⟩]
      | u :: rest2 => ⟨⟨u⟩, true⟩ :: parseTokens rest2
    else ⟨⟨t⟩, false⟩ :: parseTokens rest

/-- ParseSearchQuery from manager.go: empty input gives no groups; otherwise
the raw string is split on " OR ", each part is split into whitespace-separated
tokens and run through the NOT loop, and empty groups are dropped. -/
def ParseSearchQuery (query : String) : List (List SearchTermCondition) :=
  if query = "" then []
  else ((splitOnOR query.data).map fun part => parseTokens (fields part)).filter
    fun g => !g.isEmpty

/-- One condition of SearchComplex evaluated on a row: command LIKE
the term wrapped in percents, negated with NOT LIKE. -/
def condMatches (c : SearchTermCondition) (e : Entry) : Bool :=
  let m := sqlLike ('%' :: (c.Term.data ++ ['%'])) e.Command.data
  if c.IsNegated then !m else m

/-- The WHERE clause SearchComplex builds, evaluated on a row: OR over the
nonempty groups of an AND over their conditions; no condition at all (and
hence no WHERE clause in GetEntries) keeps every row. -/
def SearchComplexMatches (parsed : List (List SearchTermCondition)) (e : Entry) : Bool :=
  let gs := parsed.filter fun g => !g.isEmpty
  if gs.isEmpty then true else gs.any fun g => g.all fun c => condMatches c e

/-- The CASE WHEN executing_dir = ? THEN 0 ELSE 1 END key of
OrderByCurrentDirFirst. -/
def dirKey (dir : String) (e : Entry) : Nat :=
  if e.Directory = dir then 0 else 1

/-- The total preorder of ORDER BY CASE ... END, id DESC. -/
def entryLeB (dir : String) (a b : Entry) : Bool :=
  decide (dirKey dir a < dirKey dir b ∨ (dirKey dir a = dirKey dir b ∧ b.ID ≤ a.ID))

/-- Insert one entry into a list sorted by the ORDER BY key. -/
def insertE (dir : String) (a : Entry) : List Entry → List Entry
  | [] => [a]
  | b :: l => if entryLeB dir a b then a :: b :: l else b :: insertE dir a l

/-- Stable sort by the ORDER BY key of OrderByCurrentDirFirst: current
directory first, then id descending (newest first). -/
def OrderByCurrentDirFirst (dir : String) : List Entry → List Entry
  | [] => []
  | a :: l => insertE dir a (OrderByCurrentDirFirst dir l)

/-- FindHistory from manager.go: every row, ordered with the current
directory first, optionally truncated by the SQL LIMIT. -/
def FindHistory (dir : String) (limit : Option Nat) (store : List Entry) : List Entry :=
  match limit with
  | none => OrderByCurrentDirFirst dir store
  | some n => (OrderByCurrentDirFirst dir store).take n

/-- FindByCommand from manager.go: empty query lists the full history; a
non-empty query that parses to no groups returns no rows (and a nil error);
otherwise the rows matching the SearchComplex clause, ordered with the
current directory first.  The only error source in the Go code is the
database handle, which the in-memory store does not have. -/
def FindByCommand (query dir : String) (store : List Entry) : List Entry :=
  if query = "" then FindHistory dir none store
  else
    let parsed := ParseSearchQuery query
    if parsed.isEmpty then []
    else OrderByCurrentDirFirst dir (store.filter (SearchComplexMatches parsed))

/-- The entry list the updateTable closure in cmd/search.go works from: the
preloaded full history for the empty query, otherwise FindByCommand. -/
def updateTableEntries (query dir : String) (store : List Entry) : List Entry :=
  if query = "" then FindHistory dir none store else FindByCommand query dir store

/-- The rows updateTable renders, top to bottom: it walks the entry list in
reverse so that newer commands appear at the bottom of the table. -/
def displayRows (query dir : String) (store : List Entry) : List Entry :=
  (updateTableEntries query dir store).reverse

/-- isDuplicate from manager.go: SELECT COUNT(*) over rows equal on command,
executing_dir, executing_host and executing_user, compared with zero. -/
def isDuplicate (store : List Entry) (command directory hostname username : String) : Bool :=
  store.any fun e =>
    e.Command == command && e.Directory == directory &&
    e.Hostname == hostname && e.Username == username

/-- Manager.AddCommand from manager.go: an empty directory is replaced by the
working directory; unless noDedup is set, a duplicate row short-circuits with
(true, nil); otherwise the row is inserted with a fresh id and the call
reports (false, err).  The working directory and the fresh id are explicit
arguments here. -/
def AddCommand (store : List Entry) (command directory tty sid hostname username : String)
    (executedAt : Nat) (noDedup : Bool) (cwd : String) (newId : Nat) : Bool × List Entry :=
  let dir := if directory = "" then cwd else directory
  if !noDedup then
    if isDuplicate store command dir hostname username then (true, store)
    else (false, store ++ [⟨newId, command, executedAt, hostname, dir, username, tty, sid⟩])
  else (false, store ++ [⟨newId, command, executedAt, hostname, dir, username, tty, sid⟩])

/-- strings.TrimSpace: drop leading and trailing White_Space characters. -/
def trimSpaceGo (s : String) : String :=
  ⟨((s.data.dropWhile goIsSpace).reverse.dropWhile goIsSpace).reverse⟩

/-- CommandAdder.AddCommand from cmd/add.go: the command is trimmed, an empty
result is rejected with the error "empty command" before anything touches the
store, and otherwise Manager.AddCommand runs.  Config loading and manager
construction can only fail on external I/O and are not modelled. -/
def caAddCommand (store : List Entry) (command directory tty sid hostname username : String)
    (noDedup : Bool) (executedAt : Nat) (cwd : String) (newId : Nat) :
    Except String Bool × List Entry :=
  let cmd := trimSpaceGo command
  if cmd = "" then (Except.error "empty command", store)
  else
    let r := AddCommand store cmd directory tty sid hostname username executedAt noDedup cwd newId
    (Except.ok r.1, r.2)

/-- The exit status of the add subcommand Run function in cmd/add.go: the
error "empty command" exits 1, any other error reaches log.Fatal which also
exits 1, and every success path (including the duplicate skip, which calls
os.Exit 0) exits 0. -/
def addRunExitCode (res : Except String Bool) : Nat :=
  match res with
  | Except.error e => if e = "empty command" then 1 else 1
  | Except.ok _ => 0

/-- Modelled from the spec (section 4.1 and section 7): the fallback result
the spec prescribes after a parse failure, a literal substring match of the
entire raw string against the command field only, case-folded per section
4.2, ordered like every other filtered view. -/
def specFallbackResult (raw dir : String) (store : List Entry) : List Entry :=
  OrderByCurrentDirFirst dir
    (store.filter fun e => containsSeg (raw.data.map lowAscii) (e.Command.data.map lowAscii))

/-- Modelled from the spec (section 4.2): a condition matches when the
case-folded command contains the case-folded term as a substring. -/
def specFoldContains (hay needle : String) : Bool :=
  containsSeg (needle.data.map lowAscii) (hay.data.map lowAscii)

/-- A term with no LIKE wildcard characters. -/
def noWild (p : List Char) : Prop := ∀ c ∈ p, c ≠ '%' ∧ c ≠ '_'

instance (p : List Char) : Decidable (noWild p) := by
  unfold noWild
  infer_instance

/-- Scenario entry: git status, recorded first in directory /a. -/
def eGitStatus : Entry := ⟨1, "git status", 10, "host1", "/a", "u1", "", ""⟩

/-- Scenario entry: git commit, recorded second in directory /a. -/
def eGitCommit : Entry := ⟨2, "git commit -m fix", 20, "host1", "/a", "u1", "", ""⟩

/-- Scenario entry: ls, recorded third in directory /b. -/
def eLsLa : Entry := ⟨3, "ls -la", 30, "host1", "/b", "u1", "", ""⟩

/-- The snapshot of scenarios A and B of the spec. -/
def scenAEntries : List Entry := [eGitStatus, eGitCommit, eLsLa]

/-- A one-row store holding the tuple of scenario C of the spec. -/
def scenCStore : List Entry := [⟨1, "ls -la", 100, "host1", "/a", "u1", "ttyA", "sidA"⟩]

/-! Basic facts about the ORDER BY key and the modelled sort. -/

theorem entryLeB_iff (dir : String) (a b : Entry) :
    entryLeB dir a b = true ↔
      dirKey dir a < dirKey dir b ∨ (dirKey dir a = dirKey dir b ∧ b.ID ≤ a.ID) := by
  simp [entryLeB]

theorem entryLeB_total (dir : String) (a b : Entry) (h : entryLeB dir a b = false) :
    entryLeB dir b a = true := by
  rw [entryLeB_iff]
  have h2 : ¬(dirKey dir a < dirKey dir b ∨ (dirKey dir a = dirKey dir b ∧ b.ID ≤ a.ID)) := by
    intro hc
    rw [← entryLeB_iff] at hc
    rw [h] at hc
    exact Bool.false_ne_true hc
  omega

theorem entryLeB_trans (dir : String) (a b c : Entry) (hab : entryLeB dir a b = true)
    (hbc : entryLeB dir b c = true) : entryLeB dir a c = true := by
  rw [entryLeB_iff] at hab hbc ⊢
  omega

theorem mem_insertE (dir : String) (a c : Entry) :
    ∀ l : List Entry, c ∈ insertE dir a l ↔ c = a ∨ c ∈ l := by
  intro l
  induction l with
  | nil => simp [insertE]
  | cons b t ih =>
    simp only [insertE]
    split
    · simp [List.mem_cons]
    · simp only [List.mem_cons, ih]
      tauto

theorem pairwise_insertE (dir : String) (a : Entry) (l : List Entry)
    (h : l.Pairwise fun x y => entryLeB dir x y = true) :
    (insertE dir a l).Pairwise fun x y => entryLeB dir x y = true := by
  induction l with
  | nil => simp [insertE]
  | cons b t ih =>
    rcases h with _ | ⟨hb, ht⟩
    simp only [insertE]
    by_cases hle : entryLeB dir a b = true
    · rw [if_pos hle]
      refine List.Pairwise.cons ?_ (List.Pairwise.cons hb ht)
      intro c hc
      rcases List.mem_cons.mp hc with hc | hc
      · rw [hc]; exact hle
      · exact entryLeB_trans dir a b c hle (hb c hc)
    · have hf : entryLeB dir a b = false := by simp_all
      rw [if_neg (by simp [hf])]
      refine List.Pairwise.cons ?_ (ih ht)
      intro c hc
      rcases (mem_insertE dir a c t).mp hc with hc | hc
      · rw [hc]; exact entryLeB_total dir a b hf
      · exact hb c hc

theorem sorted_OrderByCurrentDirFirst (dir : String) :
    ∀ l : List Entry,
      (OrderByCurrentDirFirst dir l).Pairwise fun x y => entryLeB dir x y = true := by
  intro l
  induction l with
  | nil => simp [OrderByCurrentDirFirst]
  | cons a t ih => exact pairwise_insertE dir a _ ih

theorem perm_insertE (dir : String) (a : Entry) :
    ∀ l : List Entry, (insertE dir a l).Perm (a :: l) := by
  intro l
  induction l with
  | nil => simp [insertE]
  | cons b t ih =>
    simp only [insertE]
    split
    · exact List.Perm.refl _
    · exact (ih.cons b).trans (List.Perm.swap a b t)

theorem perm_OrderByCurrentDirFirst (dir : String) :
    ∀ l : List Entry, (OrderByCurrentDirFirst dir l).Perm l := by
  intro l
  induction l with
  | nil => exact List.Perm.refl _
  | cons a t ih =>
    exact (perm_insertE dir a (OrderByCurrentDirFirst dir t)).trans (ih.cons a)

/-! Relating SQL LIKE matching to case-folded substring containment, for terms
free of the LIKE wildcard characters. -/

theorem begMatch_iff : ∀ p t : List Char, begMatch p t = true ↔ ∃ r, t = p ++ r := by
  intro p
  induction p with
  | nil => intro t; simp [begMatch]
  | cons a x ih =>
    intro t
    cases t with
    | nil =>
      simp only [begMatch]
      constructor
      · intro h; exact absurd h (by simp)
      · rintro ⟨r, hr⟩; exact absurd hr (by simp)
    | cons b y =>
      simp only [begMatch, Bool.and_eq_true, beq_iff_eq, ih y]
      constructor
      · rintro ⟨rfl, r, rfl⟩; exact ⟨r, rfl⟩
      · rintro ⟨r, hr⟩
        rw [List.cons_append] at hr
        rcases List.cons.injEq .. ▸ hr with ⟨h1, h2⟩
        exact ⟨h1.symm, r, h2⟩

theorem containsSeg_iff (p : List Char) :
    ∀ t : List Char, containsSeg p t = true ↔ ∃ pre post, t = pre ++ p ++ post := by
  intro t
  induction t with
  | nil =>
    simp only [containsSeg, List.isEmpty_iff]
    constructor
    · rintro rfl; exact ⟨[], [], rfl⟩
    · rintro ⟨pre, post, h⟩
      rcases List.append_eq_nil.mp (List.append_eq_nil.mp h.symm).1 with ⟨_, h2⟩
      exact h2
  | cons c t ih =>
    simp only [containsSeg, Bool.or_eq_true, begMatch_iff, ih]
    constructor
    · rintro (⟨r, hr⟩ | ⟨pre, post, hp⟩)
      · exact ⟨[], r, by simp [hr]⟩
      · exact ⟨c :: pre, post, by simp [hp]⟩
    · rintro ⟨pre, post, hp⟩
      cases pre with
      | nil => exact Or.inl ⟨post, by simpa using hp⟩
      | cons d pre2 =>
        right
        rcases List.cons.injEq .. ▸ hp with ⟨_, h2⟩
        exact ⟨pre2, post, h2⟩

theorem mem_tails_self_nil (t : List Char) : [] ∈ t.tails :=
  (List.mem_tails _ _).mpr ⟨t, List.append_nil t⟩

theorem sqlLike_pct_eq (p t : List Char) :
    sqlLike ('%' :: p) t = t.tails.any fun t2 => sqlLike p t2 := by
  simp [sqlLike]

theorem sqlLike_cons_nil (c : Char) (hc : c ≠ '%') (p : List Char) :
    sqlLike (c :: p) [] = false := by
  simp [sqlLike, hc]

theorem sqlLike_cons_cons (c : Char) (hc : c ≠ '%') (p : List Char) (d : Char)
    (t2 : List Char) :
    sqlLike (c :: p) (d :: t2) = ((c = '_' || lowAscii c == lowAscii d) && sqlLike p t2) := by
  simp [sqlLike, hc]

theorem sqlLike_term_pct : ∀ p : List Char, noWild p →
    ∀ t : List Char, (sqlLike (p ++ ['%']) t = true ↔
      ∃ t1 t2, t = t1 ++ t2 ∧ t1.map lowAscii = p.map lowAscii) := by
  intro p
  induction p with
  | nil =>
    intro _ t
    simp only [List.nil_append]
    constructor
    · intro _; exact ⟨[], t, rfl, by simp⟩
    · intro _
      rw [sqlLike_pct_eq, List.any_eq_true]
      exact ⟨[], mem_tails_self_nil t, by simp [sqlLike]⟩
  | cons c p ih =>
    intro hw t
    have hc : c ≠ '%' := (hw c (by simp)).1
    have hc2 : c ≠ '_' := (hw c (by simp)).2
    have ihw : noWild p := fun d hd => hw d (by simp [hd])
    cases t with
    | nil =>
      rw [List.cons_append, sqlLike_cons_nil c hc]
      constructor
      · intro h; exact absurd h (by simp)
      · rintro ⟨t1, t2, h1, h2⟩
        rcases List.append_eq_nil.mp h1.symm with ⟨rfl, _⟩
        simp at h2
    | cons d t2 =>
      rw [List.cons_append, sqlLike_cons_cons c hc]
      simp only [Bool.and_eq_true, Bool.or_eq_true, beq_iff_eq, decide_eq_true_eq,
        ih ihw t2]
      constructor
      · rintro ⟨hd, u1, u2, rfl, hu⟩
        rcases hd with hd | hd
        · exact absurd hd hc2
        · exact ⟨d :: u1, u2, rfl, by simp [hd, hu]⟩
      · rintro ⟨t1, t3, h1, h2⟩
        cases t1 with
        | nil => simp at h2
        | cons e u1 =>
          rcases List.cons.injEq .. ▸ h1 with ⟨rfl, h12⟩
          simp only [List.map_cons, List.cons.injEq] at h2
          exact ⟨Or.inr h2.1.symm, u1, t3, h12, h2.2⟩

theorem sqlLike_pct_term_pct (p : List Char) (hw : noWild p) (t : List Char) :
    sqlLike ('%' :: (p ++ ['%'])) t = true ↔
      ∃ pre mid post, t = pre ++ mid ++ post ∧ mid.map lowAscii = p.map lowAscii := by
  rw [sqlLike_pct_eq, List.any_eq_true]
  constructor
  · rintro ⟨t2, hmem, hm⟩
    have hsuf : ∃ s, s ++ t2 = t := (List.mem_tails _ _).mp hmem
    rcases hsuf with ⟨pre, rfl⟩
    rcases (sqlLike_term_pct p hw t2).mp hm with ⟨mid, post, rfl, h2⟩
    exact ⟨pre, mid, post, by simp, h2⟩
  · rintro ⟨pre, mid, post, rfl, h2⟩
    refine ⟨mid ++ post, ?_, ?_⟩
    · refine (List.mem_tails _ _).mpr ?_
      rw [List.append_assoc]
      exact List.suffix_append pre (mid ++ post)
    · exact (sqlLike_term_pct p hw (mid ++ post)).mpr ⟨mid, post, rfl, h2⟩

theorem map_append_decomp {f : Char → Char} :
    ∀ {t A B : List Char}, t.map f = A ++ B →
      ∃ a b, t = a ++ b ∧ a.map f = A ∧ b.map f = B := by
  intro t A B h
  exact List.map_eq_append_iff.mp h

theorem containsSeg_map_iff (p t : List Char) :
    containsSeg (p.map lowAscii) (t.map lowAscii) = true ↔
      ∃ pre mid post, t = pre ++ mid ++ post ∧ mid.map lowAscii = p.map lowAscii := by
  rw [containsSeg_iff]
  constructor
  · rintro ⟨PRE, POST, h⟩
    rcases map_append_decomp h with ⟨ab, post, rfl, hab, hpost⟩
    rcases map_append_decomp hab with ⟨pre, mid, rfl, hpre, hmid⟩
    exact ⟨pre, mid, post, rfl, hmid⟩
  · rintro ⟨pre, mid, post, rfl, h⟩
    exact ⟨pre.map lowAscii, post.map lowAscii, by simp [h]⟩

theorem sqlLike_eq_containsSeg (p t : List Char) (hw : noWild p) :
    sqlLike ('%' :: (p ++ ['%'])) t = containsSeg (p.map lowAscii) (t.map lowAscii) :=
  Bool.coe_iff_coe.mp ((sqlLike_pct_term_pct p hw t).trans (containsSeg_map_iff p t).symm)

/-! Facts about the query splitter, strings.Fields and strings.TrimSpace. -/

theorem breakSep_decomp (sep : List Char) :
    ∀ l b a : List Char, breakSep sep l = some (b, a) → l = b ++ sep ++ a := by
  intro l
  induction l with
  | nil => intro b a h; simp [breakSep] at h
  | cons c t ih =>
    intro b a h
    simp only [breakSep] at h
    split at h
    · simp only [Option.some.injEq, Prod.mk.injEq] at h
      rcases h with ⟨h1, h2⟩
      subst h1
      rcases begMatch_iff sep (c :: t) |>.mp (by assumption) with ⟨r, hr⟩
      rw [hr] at h2 ⊢
      rw [List.drop_left] at h2
      rw [← h2]
      simp
    · rcases hq : breakSep sep t with _ | ⟨b2, a2⟩ <;> rw [hq] at h
      · simp at h
      · simp only [Option.map_some', Option.some.injEq, Prod.mk.injEq] at h
        rcases h with ⟨h1, h2⟩
        rw [← h1, ← h2]
        simp only [List.cons_append, List.append_assoc]
        have := ih b2 a2 hq
        rw [List.append_assoc] at this
        rw [this]

theorem splitOnORF_mem :
    ∀ (n : Nat) (l p : List Char), p ∈ splitOnORF n l → ∀ c ∈ p, c ∈ l := by
  intro n
  induction n with
  | zero =>
    intro l p hp c hc
    simp only [splitOnORF, List.mem_singleton] at hp
    rwa [hp] at hc
  | succ n ih =>
    intro l p hp c hc
    simp only [splitOnORF] at hp
    rcases hq : breakSep orSep l with _ | ⟨b, a⟩ <;> rw [hq] at hp
    · simp only [List.mem_singleton] at hp
      rwa [hp] at hc
    · have hdec := breakSep_decomp orSep l b a hq
      rcases List.mem_cons.mp hp with hp | hp
      · rw [hdec]
        simp only [List.append_assoc, List.mem_append]
        exact Or.inl (hp ▸ hc)
      · rw [hdec]
        simp only [List.append_assoc, List.mem_append]
        exact Or.inr (Or.inr (ih a p hp c hc))

theorem fieldsAux_allspace :
    ∀ l : List Char, (∀ c ∈ l, goIsSpace c = true) →
      ∀ acc, fieldsAux l acc = if acc.isEmpty then [] else [acc.reverse] := by
  intro l
  induction l with
  | nil => intro _ acc; rfl
  | cons c t ih =>
    intro hs acc
    have hc : goIsSpace c = true := hs c (by simp)
    have ht : ∀ d ∈ t, goIsSpace d = true := fun d hd => hs d (by simp [hd])
    simp only [fieldsAux]
    rw [if_pos hc]
    by_cases hacc : acc.isEmpty = true
    · rw [if_pos hacc, if_pos hacc, ih ht []]
      simp
    · rw [if_neg hacc, if_neg hacc, ih ht []]
      simp

theorem fields_allspace (l : List Char) (hs : ∀ c ∈ l, goIsSpace c = true) :
    fields l = [] := by
  rw [fields, fieldsAux_allspace l hs []]
  simp

theorem ParseSearchQuery_allspace (q : String) (hq : q ≠ "")
    (hs : ∀ c ∈ q.data, goIsSpace c = true) : ParseSearchQuery q = [] := by
  rw [ParseSearchQuery, if_neg hq]
  rw [List.filter_eq_nil_iff]
  intro g hg
  rcases List.mem_map.mp hg with ⟨piece, hpiece, hgdef⟩
  have hps : ∀ c ∈ piece, goIsSpace c = true := fun c hc =>
    hs c (splitOnORF_mem q.data.length q.data piece hpiece c hc)
  rw [← hgdef, fields_allspace piece hps]
  simp [parseTokens]

theorem trimSpaceGo_allspace (s : String) (hs : ∀ c ∈ s.data, goIsSpace c = true) :
    trimSpaceGo s = "" := by
  rw [trimSpaceGo]
  rw [List.dropWhile_eq_nil_iff.mpr hs]
  decide

/-! Shape of the search results, and order-theoretic consequences. -/

theorem updateTableEntries_eq (q dir : String) (es : List Entry) :
    updateTableEntries q dir es = FindByCommand q dir es := by
  by_cases hq : q = "" <;> simp [updateTableEntries, FindByCommand, hq]

theorem FindByCommand_shape (q dir : String) (es : List Entry) :
    ∃ l : List Entry, List.Sublist l es ∧
      FindByCommand q dir es = OrderByCurrentDirFirst dir l := by
  by_cases hq : q = ""
  · exact ⟨es, List.Sublist.refl es, by rw [FindByCommand, if_pos hq]; rfl⟩
  · rw [FindByCommand, if_neg hq]
    by_cases hp : (ParseSearchQuery q).isEmpty
    · refine ⟨[], List.nil_sublist es, ?_⟩
      simp [hp, OrderByCurrentDirFirst]
    · refine ⟨es.filter (SearchComplexMatches (ParseSearchQuery q)), List.filter_sublist es, ?_⟩
      simp [hp]

theorem entryLeB_dir_mono (dir : String) (a b : Entry) (hab : entryLeB dir a b = true)
    (ha : a.Directory ≠ dir) : b.Directory ≠ dir := by
  rw [entryLeB_iff] at hab
  intro hb
  rw [dirKey, if_neg ha] at hab
  rw [dirKey, if_pos hb] at hab
  omega

theorem pairwise_dir_OrderBy (dir : String) (l : List Entry) :
    (OrderByCurrentDirFirst dir l).Pairwise
      fun a b => a.Directory ≠ dir → b.Directory ≠ dir :=
  (sorted_OrderByCurrentDirFirst dir l).imp fun hab ha =>
    entryLeB_dir_mono dir _ _ hab ha

theorem pairwise_id_desc_filter (dir : String) (l : List Entry) (p : Entry → Bool)
    (hs : l.Pairwise fun x y => entryLeB dir x y = true)
    (hn : (l.map Entry.ID).Nodup)
    (hp : ∀ a b : Entry, p a = true → p b = true → dirKey dir a = dirKey dir b) :
    ((l.filter p).reverse).Pairwise fun a b => a.ID < b.ID := by
  have h1 : (l.filter p).Pairwise fun x y => entryLeB dir x y = true :=
    List.Pairwise.filter p hs
  have h2 : l.Pairwise fun a b => a.ID ≠ b.ID := (List.pairwise_map).mp hn
  have h3 : (l.filter p).Pairwise fun a b => a.ID ≠ b.ID := List.Pairwise.filter p h2
  have h4 : (l.filter p).Pairwise fun a b => b.ID < a.ID := by
    refine List.Pairwise.imp_of_mem ?_ (h1.and h3)
    intro a b ha hb hr
    have hpa : p a = true := List.of_mem_filter ha
    have hpb : p b = true := List.of_mem_filter hb
    have hk := hp a b hpa hpb
    rcases hr with ⟨hle, hne⟩
    rw [entryLeB_iff] at hle
    omega
  exact (List.pairwise_reverse).mpr h4

theorem dirKey_eq_of_beq (dir : String) (a b : Entry)
    (ha : (a.Directory == dir) = true) (hb : (b.Directory == dir) = true) :
    dirKey dir a = dirKey dir b := by
  rw [dirKey, if_pos (by exact beq_iff_eq.mp ha), dirKey, if_pos (by exact beq_iff_eq.mp hb)]

theorem dirKey_eq_of_nbeq (dir : String) (a b : Entry)
    (ha : (!(a.Directory == dir)) = true) (hb : (!(b.Directory == dir)) = true) :
    dirKey dir a = dirKey dir b := by
  rw [Bool.not_eq_true', beq_eq_false_iff_ne] at ha hb
  rw [dirKey, if_neg ha, dirKey, if_neg hb]

theorem condMatches_command_only (c : SearchTermCondition) (e1 e2 : Entry)
    (h : e1.Command = e2.Command) : condMatches c e1 = condMatches c e2 := by
  simp [condMatches, h]

theorem SearchComplexMatches_command_only (parsed : List (List SearchTermCondition))
    (e1 e2 : Entry) (h : e1.Command = e2.Command) :
    SearchComplexMatches parsed e1 = SearchComplexMatches parsed e2 := by
  have hf : (fun c => condMatches c e1) = fun c => condMatches c e2 :=
    funext fun c => condMatches_command_only c e1 e2 h
  simp only [SearchComplexMatches, hf]


/-! Claim theorems. -/

/-- Claim C1, counterexample: on a store already holding the exact tuple
(ls -la, /a, host1, u1), inserting the same tuple with the dedup bypass flag
set does insert a new row, but reports the duplicate flag as false, not true
as the claim states. -/
theorem c1_counterexample :
    isDuplicate scenCStore "ls -la" "/a" "host1" "u1" = true ∧
    (AddCommand scenCStore "ls -la" "/a" "ttyB" "sidB" "host1" "u1" 200 true "/" 2).1 = false ∧
    (AddCommand scenCStore "ls -la" "/a" "ttyB" "sidB" "host1" "u1" 200 true "/" 2).2.length =
      scenCStore.length + 1 := by
  decide

/-- Claim C1, amended: with the dedup bypass flag set, AddCommand skips the
existence check entirely (the result does not depend on the store contents),
always appends the new row, and reports the duplicate flag as false to the
caller. -/
theorem c1_theorem (store : List Entry)
    (command directory tty sid hostname username cwd : String) (executedAt newId : Nat) :
    AddCommand store command directory tty sid hostname username executedAt true cwd newId =
      (false, store ++ [⟨newId, command, executedAt, hostname,
        if directory = "" then cwd else directory, username, tty, sid⟩]) := by
  simp [AddCommand]

/-- Claim C2, counterexample: the raw query consisting of the word OR between
spaces yields no usable conditions; FindByCommand then returns the empty list,
not the literal substring match of the raw string against the command field
that the claim prescribes (which would keep the entry whose command is
a OR b). -/
theorem c2_counterexample :
    FindByCommand " OR " "/a" [⟨1, "a OR b", 0, "h", "/a", "u", "", ""⟩] = [] ∧
    specFallbackResult " OR " "/a" [⟨1, "a OR b", 0, "h", "/a", "u", "", ""⟩] =
      [⟨1, "a OR b", 0, "h", "/a", "u", "", ""⟩] ∧
    FindByCommand " OR " "/a" [⟨1, "a OR b", 0, "h", "/a", "u", "", ""⟩] ≠
      specFallbackResult " OR " "/a" [⟨1, "a OR b", 0, "h", "/a", "u", "", ""⟩] := by
  decide

/-- Claim C2, amended: parsing never signals failure; for every non-empty raw
query whose parse yields no usable conditions, the search neither errors nor
falls back to substring-matching the raw string: it returns the empty entry
list. -/
theorem c2_theorem (q dir : String) (es : List Entry) (hq : q ≠ "")
    (hp : ParseSearchQuery q = []) : FindByCommand q dir es = [] := by
  rw [FindByCommand, if_neg hq]
  simp [hp]

/-- Claim C2, witness of the amended theorem at the query of scenario D. -/
theorem c2_witness :
    FindByCommand " OR " "/x" [⟨1, "a OR b", 0, "h", "/a", "u", "", ""⟩] = [] :=
  c2_theorem " OR " "/x" [⟨1, "a OR b", 0, "h", "/a", "u", "", ""⟩] (by decide) (by decide)

/-- Claim C3: in the rendered view (updateTable walks the ordered result in
reverse so the newest row sits at the bottom), the rows of the current
directory partition appear in insertion order, oldest first (id ascending),
and so do the rows of the other-directories partition; in particular scenario
A renders exactly the two /a entries, oldest first. -/
theorem c3_theorem :
    (∀ (q dir : String) (es : List Entry), (es.map Entry.ID).Nodup →
      (((displayRows q dir es).filter fun e => e.Directory == dir).Pairwise
          fun a b => a.ID < b.ID) ∧
      (((displayRows q dir es).filter fun e => !(e.Directory == dir)).Pairwise
          fun a b => a.ID < b.ID)) ∧
    displayRows "git" "/a" scenAEntries = [eGitStatus, eGitCommit] := by
  constructor
  · intro q dir es hn
    have heq : displayRows q dir es = (FindByCommand q dir es).reverse := by
      rw [displayRows, updateTableEntries_eq]
    rcases FindByCommand_shape q dir es with ⟨l, hsub, hfe⟩
    have hnl : (l.map Entry.ID).Nodup := hn.sublist (hsub.map Entry.ID)
    have hns : ((OrderByCurrentDirFirst dir l).map Entry.ID).Nodup :=
      (List.Perm.nodup_iff ((perm_OrderByCurrentDirFirst dir l).map Entry.ID)).mpr hnl
    rw [heq, hfe]
    constructor
    · rw [List.filter_reverse]
      exact pairwise_id_desc_filter dir _ _ (sorted_OrderByCurrentDirFirst dir l) hns
        fun a b ha hb => dirKey_eq_of_beq dir a b ha hb
    · rw [List.filter_reverse]
      exact pairwise_id_desc_filter dir _ _ (sorted_OrderByCurrentDirFirst dir l) hns
        fun a b ha hb => dirKey_eq_of_nbeq dir a b ha hb
  · decide

/-- Claim C3, witness at scenario A. -/
theorem c3_witness :
    (((displayRows "git" "/a" scenAEntries).filter fun e => e.Directory == "/a").Pairwise
        fun a b => a.ID < b.ID) ∧
    (((displayRows "git" "/a" scenAEntries).filter fun e => !(e.Directory == "/a")).Pairwise
        fun a b => a.ID < b.ID) :=
  c3_theorem.1 "git" "/a" scenAEntries (by decide)

/-- Claim C4, counterexample: on the entries of scenario B the query dir:/b
returns the empty list, not the single /b entry the claim states, because the
search grammar of ParseSearchQuery has no field qualifiers. -/
theorem c4_counterexample :
    FindByCommand "dir:/b" "/a" scenAEntries = [] ∧
    FindByCommand "dir:/b" "/a" scenAEntries ≠ [eLsLa] := by
  decide

/-- Claim C4, amended: the query grammar has no field qualifiers; every parsed
condition tests the command field only (matching is invariant under changes to
every other field), and the query dir:/b is treated as a literal
command-substring term, so on the scenario B entries it yields the empty
result. -/
theorem c4_theorem :
    (∀ (q : String) (e1 e2 : Entry), e1.Command = e2.Command →
      SearchComplexMatches (ParseSearchQuery q) e1 =
        SearchComplexMatches (ParseSearchQuery q) e2) ∧
    FindByCommand "dir:/b" "/a" scenAEntries = [] := by
  constructor
  · intro q e1 e2 h
    exact SearchComplexMatches_command_only (ParseSearchQuery q) e1 e2 h
  · decide

/-- Claim C4, witness: matching the query dir:/b is unchanged when every field
except the command is replaced. -/
theorem c4_witness :
    SearchComplexMatches (ParseSearchQuery "dir:/b") ⟨5, "x", 0, "h1", "/b", "u", "", ""⟩ =
      SearchComplexMatches (ParseSearchQuery "dir:/b") ⟨6, "x", 1, "h2", "/c", "u2", "t", "s"⟩ :=
  c4_theorem.1 "dir:/b" ⟨5, "x", 0, "h1", "/b", "u", "", ""⟩
    ⟨6, "x", 1, "h2", "/c", "u2", "t", "s"⟩ (by decide)

/-- Claim C5: isDuplicate is true exactly when the store holds an entry equal
on the four fields command, directory, hostname and username (timestamp, tty
and sid do not appear in the test), and with dedup enabled AddCommand leaves
the store unchanged and reports true on such a duplicate. -/
theorem c5_theorem :
    (∀ (store : List Entry) (c d h u : String),
      isDuplicate store c d h u = true ↔
        ∃ e ∈ store, e.Command = c ∧ e.Directory = d ∧ e.Hostname = h ∧ e.Username = u) ∧
    (∀ (store : List Entry) (c d tty sid h u cwd : String) (ts nid : Nat),
      d ≠ "" → isDuplicate store c d h u = true →
        AddCommand store c d tty sid h u ts false cwd nid = (true, store)) := by
  constructor
  · intro store c d h u
    simp [isDuplicate, List.any_eq_true, and_assoc]
  · intro store c d tty sid h u cwd ts nid hd hdup
    simp [AddCommand, if_neg hd, hdup]

/-- Claim C5, witness at scenario C: re-inserting the stored tuple with dedup
enabled reports a duplicate and leaves the store unchanged. -/
theorem c5_witness :
    AddCommand scenCStore "ls -la" "/a" "ttyB" "sidB" "host1" "u1" 200 false "/" 2 =
      (true, scenCStore) :=
  c5_theorem.2 scenCStore "ls -la" "/a" "ttyB" "sidB" "host1" "u1" "/" 200 2
    (by decide) (by decide)

/-- Claim C6: in every filtered and ordered result of FindByCommand, every
entry whose directory equals the current directory precedes every entry with a
different directory. -/
theorem c6_theorem (q dir : String) (es : List Entry) :
    (FindByCommand q dir es).Pairwise
      fun a b => a.Directory ≠ dir → b.Directory ≠ dir := by
  rcases FindByCommand_shape q dir es with ⟨l, _, heq⟩
  rw [heq]
  exact pairwise_dir_OrderBy dir l

/-- Claim C7, counterexample: the term consisting of the single underscore
LIKE wildcard matches the command x, although the case-folded command does not
contain the term as a substring, so the claimed containment semantics fails
for wildcard terms. -/
theorem c7_counterexample :
    condMatches ⟨"_", false⟩ ⟨1, "x", 0, "h", "/d", "u", "", ""⟩ = true ∧
    specFoldContains "x" "_" = false := by
  decide

/-- Claim C7, amended: for every term free of the LIKE wildcards percent and
underscore, a non-negated condition matches exactly when the case-folded
command contains the case-folded term as a substring (wildcard terms instead
use LIKE pattern semantics), and a negated condition matches exactly when the
non-negated test on the same term fails. -/
theorem c7_theorem :
    (∀ (t : String) (e : Entry), noWild t.data →
      condMatches ⟨t, false⟩ e = specFoldContains e.Command t) ∧
    (∀ (t : String) (e : Entry),
      condMatches ⟨t, true⟩ e = !condMatches ⟨t, false⟩ e) := by
  constructor
  · intro t e hw
    simp only [condMatches, if_neg (by simp : ¬false = true), specFoldContains]
    exact sqlLike_eq_containsSeg t.data e.Command.data hw
  · intro t e
    simp [condMatches]

/-- Claim C7, witness: the wildcard-free term OR matches the command WORD, in
agreement with case-folded containment. -/
theorem c7_witness :
    condMatches ⟨"OR", false⟩ ⟨1, "WORD", 0, "h", "/y", "u", "", ""⟩ =
      specFoldContains (⟨1, "WORD", 0, "h", "/y", "u", "", ""⟩ : Entry).Command "OR" :=
  c7_theorem.1 "OR" ⟨1, "WORD", 0, "h", "/y", "u", "", ""⟩ (by decide)

/-- Claim C8: the empty query returns exactly the ordering rule applied to the
full snapshot: the same entries (a permutation of the store) in the order of
OrderByCurrentDirFirst, both at the manager level and in the updateTable
closure. -/
theorem c8_theorem (dir : String) (es : List Entry) :
    FindByCommand "" dir es = OrderByCurrentDirFirst dir es ∧
    (FindByCommand "" dir es).Perm es ∧
    updateTableEntries "" dir es = FindByCommand "" dir es := by
  refine ⟨rfl, ?_, rfl⟩
  exact perm_OrderByCurrentDirFirst dir es

/-- Claim C9, counterexample: the single word OR does not parse to an empty
condition list (strings.Split only splits on the four-character separator
containing spaces); the query OR is a literal term and substring-matches the
command WORD, so FindByCommand returns that entry rather than the empty
list. -/
theorem c9_counterexample :
    ParseSearchQuery "OR" = [[⟨"OR", false⟩]] ∧
    FindByCommand "OR" "/x" [⟨1, "WORD", 0, "h", "/y", "u", "", ""⟩] =
      [⟨1, "WORD", 0, "h", "/y", "u", "", ""⟩] ∧
    FindByCommand "OR" "/x" [⟨1, "WORD", 0, "h", "/y", "u", "", ""⟩] ≠ [] := by
  decide

/-- Claim C9, amended: for every non-empty query string whose parse produces
no conditions (for example the word OR surrounded by spaces, or a string of
only whitespace; the single word OR instead parses as a literal term),
FindByCommand returns the empty entry list, and the nil error of the code is
modelled by the function being total. -/
theorem c9_theorem (q dir : String) (es : List Entry) (hq : q ≠ "")
    (hp : ParseSearchQuery q = []) : FindByCommand q dir es = [] := by
  rw [FindByCommand, if_neg hq]
  simp [hp]

/-- Claim C9, witness at the in-scope example query of the word OR surrounded
by spaces, whose parse produces no conditions. -/
theorem c9_witness :
    FindByCommand " OR " "/x" [⟨1, "a", 0, "h", "/x", "u", "", ""⟩] = [] :=
  c9_theorem " OR " "/x" [⟨1, "a", 0, "h", "/x", "u", "", ""⟩] (by decide) (by decide)

/-- Claim C10: for every command that is empty or made only of whitespace, the
insertion path of cmd/add.go trims it, rejects it with the error empty
command, leaves the store untouched, and the add subcommand exits with status
1. -/
theorem c10_theorem (command : String) (store : List Entry)
    (directory tty sid hostname username cwd : String) (nd : Bool) (ts nid : Nat)
    (hs : ∀ c ∈ command.data, goIsSpace c = true) :
    caAddCommand store command directory tty sid hostname username nd ts cwd nid =
      (Except.error "empty command", store) ∧
    addRunExitCode
      (caAddCommand store command directory tty sid hostname username nd ts cwd nid).1 = 1 := by
  have ht := trimSpaceGo_allspace command hs
  constructor
  · rw [caAddCommand]
    simp [ht]
  · rw [caAddCommand]
    simp [ht, addRunExitCode]

/-- Claim C10, witness at a whitespace-only command. -/
theorem c10_witness :
    caAddCommand [] " \t " "/d" "t" "s" "h" "u" false 3 "/" 9 =
      (Except.error "empty command", []) ∧
    addRunExitCode (caAddCommand [] " \t " "/d" "t" "s" "h" "u" false 3 "/" 9).1 = 1 :=
  c10_theorem " \t " [] "/d" "t" "s" "h" "u" "/" false 3 9 (by decide)

end Duckhist
